import Mathlib

/-!
Verification development for the action-execution engine of the
chirp-automation repository.

The TypeScript sources are shallowly embedded as Lean definitions:

* `src/worker/uiautomator.ts` — selectors, the flattened accessibility
  snapshot, `collectNodes`, `matchesSelector`, `findAnySelectorBounds`,
  `parseBounds`.
* `src/worker/runner.ts` — the step interpreter: `splitPreSteps` /
  `planAction` (the leading `ensure_emulator_ready` split and the action
  deadline), `runWithRetry`, `runRepeat`, the engine state machine around
  `enqueue` / `resolveAction` / `runAction`, the `wake_and_unlock` step,
  the wait-for-selector polling loop and the interstitial-dialog watchdog.

Async device effects are modelled by explicit event traces: each embedded
operation returns the list of observable events (device operations, sleeps,
sub-sequence invocations) next to its result.  Code that can throw returns
`Except String`.  Machine "numbers" in the sources are integer millisecond
counts, key codes and pixel coordinates, all non-negative, and are modelled
as `Nat`.
-/

/-! ## Data model: selectors and snapshot nodes (`src/config/actions.ts`,
`src/worker/uiautomator.ts`) -/

/-- Selector from `actions.ts`: six optional match fields.  A missing field
is `none`; zod validation (`min(1)` plus the refinement) additionally
guarantees present fields are non-empty and at least one is present, which
`selectorValid` mirrors. -/
structure Selector where
  text : Option String := none
  textContains : Option String := none
  resourceId : Option String := none
  resourceIdContains : Option String := none
  contentDesc : Option String := none
  contentDescContains : Option String := none
deriving DecidableEq, Repr

/-- JavaScript truthiness of an optional string attribute: present and
non-empty. -/
def truthyStr : Option String → Bool
  | none => false
  | some s => s ≠ ""

/-- Validation invariant of `SelectorSchema` in `actions.ts`: every present
field is a non-empty string and at least one field is present. -/
def selectorValid (sel : Selector) : Bool :=
  (sel.text.getD "x" ≠ "") && (sel.textContains.getD "x" ≠ "") &&
  (sel.resourceId.getD "x" ≠ "") && (sel.resourceIdContains.getD "x" ≠ "") &&
  (sel.contentDesc.getD "x" ≠ "") && (sel.contentDescContains.getD "x" ≠ "") &&
  (truthyStr sel.text || truthyStr sel.textContains ||
   truthyStr sel.resourceId || truthyStr sel.resourceIdContains ||
   truthyStr sel.contentDesc || truthyStr sel.contentDescContains)

/-- Matchable attributes extracted from one snapshot node
(`extractNodeFields` in `uiautomator.ts`): missing string attributes
default to `""`, the `bounds` attribute stays optional. -/
structure NodeFields where
  text : String := ""
  resourceId : String := ""
  contentDesc : String := ""
  bounds : Option String := none
deriving DecidableEq, Repr

/-- Rectangle produced by `parseBounds`. -/
structure Bounds where
  left : Nat
  top : Nat
  right : Nat
  bottom : Nat
deriving DecidableEq, Repr

/-- Parsed accessibility dump as produced by the XML parser: an object node
carries its (already extracted) matchable attributes and the object-typed
values among its entries, in insertion order; arrays hold repeated child
elements; `prim` stands for any non-object value, which `collectNodes`
ignores. -/
inductive UiDoc where
  | prim
  | arr (items : List UiDoc)
  | obj (fields : NodeFields) (children : List UiDoc)

/-- Substring test on character lists, the model of the JavaScript
`String.includes` used by the `*Contains` selector fields. -/
def subList (needle : List Char) : List Char → Bool
  | [] => needle.isEmpty
  | c :: rest => needle.isPrefixOf (c :: rest) || subList needle rest

/-- Model of `hay.includes(needle)`. -/
def strIncludes (hay needle : String) : Bool :=
  subList needle.toList hay.toList

/-- Embedding of `matchesSelector` (`uiautomator.ts` lines 84-110): the
same chain of early-false checks, each guarded by the truthiness of the
selector field. -/
def matchesSelector (fields : NodeFields) (selector : Selector) : Bool :=
  if truthyStr selector.text && fields.text ≠ selector.text.getD "" then false
  else if truthyStr selector.textContains &&
      !strIncludes fields.text (selector.textContains.getD "") then false
  else if truthyStr selector.resourceId &&
      fields.resourceId ≠ selector.resourceId.getD "" then false
  else if truthyStr selector.resourceIdContains &&
      !strIncludes fields.resourceId (selector.resourceIdContains.getD "") then false
  else if truthyStr selector.contentDesc &&
      fields.contentDesc ≠ selector.contentDesc.getD "" then false
  else if truthyStr selector.contentDescContains &&
      !strIncludes fields.contentDesc (selector.contentDescContains.getD "") then false
  else true

mutual

/-- Embedding of `collectNodes` (`uiautomator.ts` lines 112-132): pre-order
walk pushing every record whose `bounds` attribute is truthy, then
recursing into object-typed children in insertion order. -/
def collectNodes : UiDoc → List NodeFields
  | UiDoc.prim => []
  | UiDoc.arr items => collectNodesList items
  | UiDoc.obj f cs =>
      (if truthyStr f.bounds then [f] else []) ++ collectNodesList cs

def collectNodesList : List UiDoc → List NodeFields
  | [] => []
  | d :: ds => collectNodes d ++ collectNodesList ds

end

/-! ### `parseBounds`: the unanchored rectangle regex -/

/-- Consume one expected literal character. -/
def expectChar (c : Char) : List Char → Option (List Char)
  | [] => none
  | x :: xs => if x = c then some xs else none

/-- Greedy maximal run of decimal digits (`\d+` of the regex; since the
digit class is disjoint from the delimiter characters of the pattern,
regex backtracking can never succeed where maximal munch fails). -/
def takeDigits : List Char → List Char × List Char
  | [] => ([], [])
  | c :: cs =>
      if c.isDigit then
        let p := takeDigits cs
        (c :: p.1, p.2)
      else ([], c :: cs)

/-- Decimal value of a digit run, the model of `Number.parseInt(_, 10)` on
a string of digits. -/
def digitsVal (ds : List Char) : Nat :=
  ds.foldl (fun acc c => acc * 10 + (c.toNat - 48)) 0

/-- Attempt to match the regex `\[(\d+),(\d+)\]\[(\d+),(\d+)\]` at the
current position, returning the captured rectangle and the unconsumed
rest. -/
def matchRectHere (cs : List Char) : Option (Bounds × List Char) :=
  (expectChar '[' cs).bind fun r0 =>
  let p1 := takeDigits r0
  if p1.1.isEmpty then none else
  (expectChar ',' p1.2).bind fun r2 =>
  let p2 := takeDigits r2
  if p2.1.isEmpty then none else
  (expectChar ']' p2.2).bind fun r3 =>
  (expectChar '[' r3).bind fun r4 =>
  let p3 := takeDigits r4
  if p3.1.isEmpty then none else
  (expectChar ',' p3.2).bind fun r6 =>
  let p4 := takeDigits r6
  if p4.1.isEmpty then none else
  (expectChar ']' p4.2).map fun rest =>
  (⟨digitsVal p1.1, digitsVal p2.1, digitsVal p3.1, digitsVal p4.1⟩, rest)

/-- Leftmost-match scan of the unanchored regex, as `String.prototype.match`
performs it: try each start position left to right. -/
def scanRect : List Char → Option Bounds
  | [] => none
  | c :: cs =>
      match matchRectHere (c :: cs) with
      | some p => some p.1
      | none => scanRect cs

/-- Embedding of `parseBounds` (`uiautomator.ts` lines 134-146): match the
(unanchored) rectangle regex against the string; on failure throw the
"Invalid bounds format" error. -/
def parseBounds (bounds : String) : Except String Bounds :=
  match scanRect bounds.toList with
  | some b => Except.ok b
  | none => Except.error ("Invalid bounds format: " ++ bounds)

/-- Inner selector loop of `findAnySelectorBounds` plus the outer node
loop (`uiautomator.ts` lines 52-63): nodes in the order `collectNodes`
produced them, selectors in caller order via `find?`; nodes whose extracted
`bounds` is not truthy are skipped; the first match parses its bounds. -/
def scanNodes : List NodeFields → List Selector → Except String (Option (Selector × Bounds))
  | [], _ => Except.ok none
  | f :: rest, selectors =>
      if truthyStr f.bounds then
        match selectors.find? (fun s => matchesSelector f s) with
        | some sel => (parseBounds (f.bounds.getD "")).map (fun b => some (sel, b))
        | none => scanNodes rest selectors
      else scanNodes rest selectors

/-- Embedding of `findAnySelectorBounds` (`uiautomator.ts` lines 40-66):
empty selector list short-circuits to `null`; otherwise flatten the parsed
document and scan. -/
def findAnySelectorBounds (doc : UiDoc) (selectors : List Selector) :
    Except String (Option (Selector × Bounds)) :=
  if selectors.isEmpty then Except.ok none
  else scanNodes (collectNodes doc) selectors

/-! ### Specification-side predicates for the matcher and the rectangle
format (from the spec wording, for comparison with the code) -/

/-- Spec wording of selector matching: a conjunction over the fields
present in the selector; exact fields equal the attribute, `*Contains`
fields occur as substrings, absent fields impose no constraint. -/
def SpecMatches (sel : Selector) (f : NodeFields) : Prop :=
  (∀ v, sel.text = some v → f.text = v) ∧
  (∀ v, sel.textContains = some v → v.toList <:+: f.text.toList) ∧
  (∀ v, sel.resourceId = some v → f.resourceId = v) ∧
  (∀ v, sel.resourceIdContains = some v → v.toList <:+: f.resourceId.toList) ∧
  (∀ v, sel.contentDesc = some v → f.contentDesc = v) ∧
  (∀ v, sel.contentDescContains = some v → v.toList <:+: f.contentDesc.toList)

/-- First-match description from the spec: the element list decomposes
around a matching element none of whose predecessors matches any selector,
and the selector list decomposes around the returned selector none of whose
predecessors matches that element. -/
def FirstMatch (elems : List NodeFields) (selectors : List Selector)
    (sel : Selector) (b : Bounds) : Prop :=
  ∃ pre f post, elems = pre ++ f :: post ∧
    (∀ f' ∈ pre, ∀ s ∈ selectors, ¬ SpecMatches s f') ∧
    (∃ sl1 sl2, selectors = sl1 ++ sel :: sl2 ∧
      (∀ s ∈ sl1, ¬ SpecMatches s f)) ∧
    SpecMatches sel f ∧
    parseBounds (f.bounds.getD "") = Except.ok b

/-- Spec wording of the rectangle shape `[l,t][r,b]` starting at the head
of a character list, possibly followed by arbitrary rest. -/
def IsRectHere (cs : List Char) : Prop :=
  ∃ d1 d2 d3 d4 rest,
    d1 ≠ [] ∧ d2 ≠ [] ∧ d3 ≠ [] ∧ d4 ≠ [] ∧
    (∀ c ∈ d1, c.isDigit) ∧ (∀ c ∈ d2, c.isDigit) ∧
    (∀ c ∈ d3, c.isDigit) ∧ (∀ c ∈ d4, c.isDigit) ∧
    cs = '[' :: (d1 ++ ',' :: (d2 ++ ']' :: '[' :: (d3 ++ ',' :: (d4 ++ ']' :: rest))))

/-- A string contains a substring of the rectangle shape somewhere. -/
def ContainsRect (s : String) : Prop :=
  ∃ pre suffix, s.toList = pre ++ suffix ∧ IsRectHere suffix

/-- A string is exactly of the rectangle shape `[l,t][r,b]` — the shape the
claim says `parseBounds` accepts exclusively. -/
def ExactRectShape (s : String) : Prop :=
  ∃ d1 d2 d3 d4,
    d1 ≠ [] ∧ d2 ≠ [] ∧ d3 ≠ [] ∧ d4 ≠ [] ∧
    (∀ c ∈ d1, c.isDigit) ∧ (∀ c ∈ d2, c.isDigit) ∧
    (∀ c ∈ d3, c.isDigit) ∧ (∀ c ∈ d4, c.isDigit) ∧
    s.toList = '[' :: (d1 ++ ',' :: (d2 ++ ']' :: '[' :: (d3 ++ ',' :: (d4 ++ [']']))))

/-! ## Step definitions (`src/config/actions.ts`) -/

/-- Step type from `actions.ts` (`StepDefinition`).  Field names and
constructors follow the TypeScript discriminated union; optional numeric
fields are `Option Nat`. -/
inductive Step where
  | ensure_emulator_ready (timeoutMs : Option Nat)
  | wake_and_unlock
  | launch_app (pkg : String) (activity : Option String)
  | ensure_app_open (pkg : String) (activity : Option String)
      (alreadyOpenSelector : Option Selector)
      (delayMsIfOpen delayMsIfLaunch : Option Nat)
  | tap_selector (selector : Selector) (timeoutMs : Option Nat)
  | tap_coordinates (x y : Nat)
  | wait_for_text (text textContains : Option String) (timeoutMs : Option Nat)
  | wait_for_selector (selector : Selector) (timeoutMs : Option Nat)
  | wait_for_any_selector (selectors : List Selector) (timeoutMs : Option Nat)
  | sleep (durationMs : Nat)
  | input_text (text : String)
  | keyevent (keyCode : Nat)
  | retry (attempts : Nat) (delayMs : Option Nat) (steps : List Step)
  | repeat (count : Nat) (delayMs : Option Nat) (steps : List Step)

/-- Discriminator used by the leading-run split in `runAction`. -/
def isEnsureReady : Step → Bool
  | Step.ensure_emulator_ready _ => true
  | _ => false

/-- Embedding of the `while` loop of `runAction` (`runner.ts` lines
109-117) that peels the leading run of `ensure_emulator_ready` steps off
the step list: returns (leading run, remainder). -/
def splitPreSteps : List Step → List Step × List Step
  | [] => ([], [])
  | s :: rest =>
      if isEnsureReady s then
        let p := splitPreSteps rest
        (s :: p.1, p.2)
      else ([], s :: rest)

/-- Execution plan derived by `runAction` (`runner.ts` lines 109-124): the
leading `ensure_emulator_ready` run executes directly (outside any
deadline), the remainder runs inside one `withTimeout` whose budget is
`action.timeoutMs ?? defaultTimeoutMs`. -/
structure ActionPlan where
  preSteps : List Step
  timedSteps : List Step
  timeoutMs : Nat

/-- Action definition from `actions.ts` (`ActionSchema`). -/
structure ActionDefinition where
  description : Option String := none
  timeoutMs : Option Nat := none
  steps : List Step

/-- The split-and-deadline decision of `runAction`, as data. -/
def planAction (action : ActionDefinition) (defaultTimeoutMs : Nat) : ActionPlan :=
  let p := splitPreSteps action.steps
  ⟨p.1, p.2, action.timeoutMs.getD defaultTimeoutMs⟩

/-! ## Retry and repeat (`runner.ts` lines 333-383)

The nested sequence `this.runSteps(actionId, step.steps)` is abstracted as
an outcome oracle `body : Nat → Except String Unit` giving the result of
its k-th invocation (the claims quantify over the nested sequence's
behaviour).  The observable effects are recorded as a trace. -/

/-- Observable events of the retry/repeat combinators: one invocation of
the nested sequence (tagged with the 1-based attempt/iteration number), or
one `sleep(ms)`. -/
inductive Ev where
  | run (k : Nat)
  | sleep (ms : Nat)
deriving DecidableEq, Repr

/-- Embedding of the `for` loop of `runWithRetry` (`runner.ts` lines
338-361), recursing on the number of remaining iterations: run the body;
on success return; on failure rethrow if this was the last attempt,
otherwise sleep `delayMs ?? 500` and continue. -/
def retryFrom (body : Nat → Except String Unit) (delayMs : Option Nat) :
    Nat → Nat → List Ev × Except String Unit
  | _, 0 => ([], Except.ok ())
  | attempt, n + 1 =>
      match body attempt with
      | Except.ok _ => ([Ev.run attempt], Except.ok ())
      | Except.error e =>
          if n = 0 then ([Ev.run attempt], Except.error e)
          else
            let t := retryFrom body delayMs (attempt + 1) n
            (Ev.run attempt :: Ev.sleep (delayMs.getD 500) :: t.1, t.2)

/-- `runWithRetry` for a `retry{attempts, delayMs, steps}` step: attempts
are numbered from 1. -/
def runWithRetry (attempts : Nat) (delayMs : Option Nat)
    (body : Nat → Except String Unit) : List Ev × Except String Unit :=
  retryFrom body delayMs 1 attempts

/-- Embedding of the `for` loop of `runRepeat` (`runner.ts` lines 369-382):
run the body, propagating a failure immediately; after a successful
iteration other than the last, sleep `delayMs ?? 0` when that is
positive. -/
def repeatFrom (body : Nat → Except String Unit) (delayMs : Option Nat)
    (count : Nat) : Nat → Nat → List Ev × Except String Unit
  | _, 0 => ([], Except.ok ())
  | iter, n + 1 =>
      match body iter with
      | Except.error e => ([Ev.run iter], Except.error e)
      | Except.ok _ =>
          let t := repeatFrom body delayMs count (iter + 1) n
          if iter < count && 0 < delayMs.getD 0 then
            (Ev.run iter :: Ev.sleep (delayMs.getD 0) :: t.1, t.2)
          else (Ev.run iter :: t.1, t.2)

/-- `runRepeat` for a `repeat{count, delayMs, steps}` step: iterations are
numbered from 1. -/
def runRepeat (count : Nat) (delayMs : Option Nat)
    (body : Nat → Except String Unit) : List Ev × Except String Unit :=
  repeatFrom body delayMs count 1 count

/-! ## Engine state machine (`runner.ts` lines 45-163)

`runAction`'s effects are modelled at step granularity: `executeStep` is
abstracted as an outcome oracle (its internals are irrelevant to the
claims about the surrounding control flow), and the observable engine
events are the proactive interstitial check at the start of the action,
each step execution, and the artifact capture performed on failure.  All
of these perform device operations, so an empty trace means no device
interaction at all.  Wall-clock readings (`Date.now`, ISO timestamps) are
supplied as parameters. -/

/-- Result record (`ActionResult` in `runner.ts`). -/
inductive ActionStatus where
  | ok
  | error
deriving DecidableEq, Repr

structure ActionResult where
  actionId : String
  status : ActionStatus
  durationMs : Nat
  error : Option String := none
  startedAt : String
deriving DecidableEq, Repr

structure InFlightState where
  actionId : String
  startedAt : String
deriving DecidableEq, Repr

/-- Mutable state of `ActionRunner` observable through `getState`. -/
structure EngineState where
  inFlight : Option InFlightState := none
  lastResult : Option ActionResult := none
deriving DecidableEq, Repr

/-- `getState` (`runner.ts` lines 68-76). -/
def getStateM (st : EngineState) : Option InFlightState × Option ActionResult :=
  (st.inFlight, st.lastResult)

/-- Engine-level observable events. -/
inductive REv where
  | dismissCheck
  | execStep (s : Step)
  | captureArtifacts

/-- Count of proactive interstitial checks in a trace. -/
def countDismiss (tr : List REv) : Nat :=
  tr.countP fun e => match e with | REv.dismissCheck => true | _ => false

/-- Count of artifact captures in a trace. -/
def countCapture (tr : List REv) : Nat :=
  tr.countP fun e => match e with | REv.captureArtifacts => true | _ => false

/-- Embedding of `runSteps` (`runner.ts` lines 165-184): execute the steps
in order, stopping at the first failure; `outc k` is the outcome of the
k-th `executeStep` call (indexed globally from `base`).  Note `runSteps`
performs no interstitial check of its own. -/
def runStepsM (outc : Nat → Except String Unit) (base : Nat) :
    List Step → List REv × Except String Unit
  | [] => ([], Except.ok ())
  | s :: rest =>
      match outc base with
      | Except.error e => ([REv.execStep s], Except.error e)
      | Except.ok _ =>
          let t := runStepsM outc (base + 1) rest
          (REv.execStep s :: t.1, t.2)

/-- Embedding of `dismissSystemUiDialog` (`runner.ts` lines 521-531): the
check-and-dismiss pass runs inside `try/catch`; an exception is logged and
swallowed, so the caller always sees a normal return. -/
def dismissSystemUiDialogM (checkOutcome : Except String Bool) : Except String Unit :=
  match checkOutcome with
  | Except.ok _ => Except.ok ()
  | Except.error _ => Except.ok ()

/-- Embedding of `runAction` (`runner.ts` lines 95-163): one proactive
interstitial check first, then the leading `ensure_emulator_ready` run,
then the remainder (under the action deadline, abstracted into the step
outcomes); on any failure the catch block captures artifacts, stores the
error result and rethrows it as an `ActionError`; `finally` clears
`inFlight`.  `dur` is the measured duration, `startedAt` the start
timestamp. -/
def runActionM (actionId : String) (action : ActionDefinition)
    (outc : Nat → Except String Unit) (dur : Nat) (startedAt : String) :
    EngineState × Except ActionResult ActionResult × List REv :=
  let p := splitPreSteps action.steps
  let r1 := runStepsM outc 0 p.1
  match r1.2 with
  | Except.error msg =>
      let res : ActionResult := ⟨actionId, ActionStatus.error, dur, some msg, startedAt⟩
      (⟨none, some res⟩, Except.error res,
        REv.dismissCheck :: (r1.1 ++ [REv.captureArtifacts]))
  | Except.ok _ =>
      let r2 := runStepsM outc p.1.length p.2
      match r2.2 with
      | Except.error msg =>
          let res : ActionResult := ⟨actionId, ActionStatus.error, dur, some msg, startedAt⟩
          (⟨none, some res⟩, Except.error res,
            REv.dismissCheck :: (r1.1 ++ r2.1 ++ [REv.captureArtifacts]))
      | Except.ok _ =>
          let res : ActionResult := ⟨actionId, ActionStatus.ok, dur, none, startedAt⟩
          (⟨none, some res⟩, Except.ok res,
            REv.dismissCheck :: (r1.1 ++ r2.1))

/-- Action table of `ActionConfig`: a record from action id to definition,
modelled as an association list with unique keys. -/
structure ActionConfig where
  version : Option Nat := none
  actions : List (String × ActionDefinition)

/-- Embedding of `resolveAction` (`runner.ts` lines 78-93): unknown ids
throw an `ActionError` carrying status `error`, duration 0 and the
`Unknown action` message, before anything else happens. -/
def resolveActionM (config : ActionConfig) (actionId : String)
    (nowStr : String) : Except ActionResult ActionDefinition :=
  match config.actions.lookup actionId with
  | none =>
      Except.error
        ⟨actionId, ActionStatus.error, 0, some ("Unknown action: " ++ actionId), nowStr⟩
  | some action => Except.ok action

/-- Embedding of the queued job built by `enqueue` (`runner.ts` lines
57-66): resolve the action, then run it; a resolution failure propagates
before `runAction` is ever entered, so the engine state is untouched and
the trace is empty. -/
def enqueueJobM (config : ActionConfig) (actionId : String) (st : EngineState)
    (outc : Nat → Except String Unit) (dur : Nat) (startedAt nowStr : String) :
    EngineState × Except ActionResult ActionResult × List REv :=
  match resolveActionM config actionId nowStr with
  | Except.error r => (st, Except.error r, [])
  | Except.ok action => runActionM actionId action outc dur startedAt

/-- Claim C5's reading of the trace, as a decidable check: the trace does
not open with a step execution, and every step execution is immediately
preceded by a proactive interstitial check. -/
def pairChecked (prev cur : REv) : Bool :=
  match cur with
  | REv.execStep _ => (match prev with | REv.dismissCheck => true | _ => false)
  | _ => true

def execPrecededAux (prev : REv) : List REv → Bool
  | [] => true
  | e :: rest => pairChecked prev e && execPrecededAux e rest

def execPrecededByCheck : List REv → Bool
  | [] => true
  | e :: rest =>
      (match e with | REv.execStep _ => false | _ => true) && execPrecededAux e rest

/-! ## The `wake_and_unlock` step (`runner.ts` lines 198-211,
`adb.ts`) -/

/-- Device operations issued by the `wake_and_unlock` case of
`executeStep`. -/
inductive DevOp where
  | screenQuery (isOn : Bool)
  | key (code : Nat)
  | invalidateScreenCache
deriving DecidableEq, Repr

/-- Embedding of the `wake_and_unlock` case (`runner.ts` lines 198-211):
query `isScreenOn`; when the screen is off, send key events 224, 82, 3 in
that order and invalidate the cached screen state; otherwise do nothing
further. -/
def executeWakeAndUnlock (screenOn : Bool) : List DevOp :=
  DevOp.screenQuery screenOn ::
    (if screenOn then []
     else [DevOp.key 224, DevOp.key 82, DevOp.key 3, DevOp.invalidateScreenCache])

/-- Key codes sent in a device-operation trace, in order. -/
def keyCodesOf (tr : List DevOp) : List Nat :=
  tr.filterMap fun e => match e with | DevOp.key c => some c | _ => none

/-! ## The wait-for-selector polling loop (`runner.ts` lines 417-453;
`waitForAnySelector` at lines 455-491 has the identical loop body) -/

/-- Outcome of one poll: the selector matched; no match but the watchdog
dismissed an interstitial dialog; no match and no dialog; or the poll body
threw. -/
inductive PollOutcome where
  | found (b : Bounds)
  | dialogDismissed
  | noMatch
  | errored (msg : String)

/-- Observable events of the wait loop: one cache-invalidating dump, one
watchdog invocation (with its dismissal verdict), one `sleep(ms)`. -/
inductive WEv where
  | dump
  | watchdog (dismissed : Bool)
  | sleepFor (ms : Nat)
deriving DecidableEq, Repr

/-- Embedding of the `while` loop of `waitForSelector`: each iteration
dumps the hierarchy and checks the selector; on success it returns; on a
non-match it runs the watchdog against the same dump, then — whether or
not a dialog was dismissed — sleeps exactly `stepPollMs` once and loops;
a thrown poll is remembered in `lastErr` and also sleeps `stepPollMs`.
The real-time deadline is abstracted as the number of remaining loop
iterations (`fuel`); exhaustion rethrows the remembered error, or the
"Selector not found before timeout" error (whose selector JSON payload is
not modelled). -/
def waitLoop (oracle : Nat → PollOutcome) (pollMs : Nat) :
    Option String → Nat → Nat → List WEv × Except String Bounds
  | lastErr, _, 0 =>
      ([], Except.error (lastErr.getD "Selector not found before timeout"))
  | lastErr, k, fuel + 1 =>
      match oracle k with
      | PollOutcome.found b => ([WEv.dump], Except.ok b)
      | PollOutcome.dialogDismissed =>
          let t := waitLoop oracle pollMs lastErr (k + 1) fuel
          (WEv.dump :: WEv.watchdog true :: WEv.sleepFor pollMs :: t.1, t.2)
      | PollOutcome.noMatch =>
          let t := waitLoop oracle pollMs lastErr (k + 1) fuel
          (WEv.dump :: WEv.watchdog false :: WEv.sleepFor pollMs :: t.1, t.2)
      | PollOutcome.errored e =>
          let t := waitLoop oracle pollMs (some e) (k + 1) fuel
          (WEv.dump :: WEv.sleepFor pollMs :: t.1, t.2)

/-- `waitForSelector` entry point: no remembered error, polls numbered
from 0. -/
def waitForSelectorM (oracle : Nat → PollOutcome) (pollMs fuel : Nat) :
    List WEv × Except String Bounds :=
  waitLoop oracle pollMs none 0 fuel

/-- Every `sleepFor` event in the trace sleeps exactly `p` milliseconds. -/
def allSleepsEq (p : Nat) : List WEv → Bool
  | [] => true
  | WEv.sleepFor ms :: rest => ms = p && allSleepsEq p rest
  | _ :: rest => allSleepsEq p rest

/-- Every watchdog invocation is immediately preceded by the dump it is
checked against. -/
def wdAux (prev : WEv) : List WEv → Bool
  | [] => true
  | e :: rest =>
      (match e with
       | WEv.watchdog _ => (match prev with | WEv.dump => true | _ => false)
       | _ => true) && wdAux e rest

def watchdogAfterDump : List WEv → Bool
  | [] => true
  | e :: rest =>
      (match e with | WEv.watchdog _ => false | _ => true) && wdAux e rest

/-- Every watchdog invocation is immediately followed by one sleep of `p`
milliseconds (the pause before the re-poll). -/
def watchdogThenSleep (p : Nat) : List WEv → Bool
  | [] => true
  | WEv.watchdog _ :: rest =>
      (match rest with | WEv.sleepFor ms :: _ => ms = p | _ => false) &&
        watchdogThenSleep p rest
  | _ :: rest => watchdogThenSleep p rest

/-- Every dump is either the final event (a successful poll) or immediately
followed by a watchdog invocation. -/
def dumpThenWatchdog : List WEv → Bool
  | [] => true
  | [WEv.dump] => true
  | WEv.dump :: e :: rest =>
      (match e with | WEv.watchdog _ => true | _ => false) &&
        dumpThenWatchdog (e :: rest)
  | _ :: rest => dumpThenWatchdog rest

/-- Sleep duration recorded immediately after the first watchdog whose
verdict is `dismissed`. -/
def sleepAfterWatchdog (dismissed : Bool) : List WEv → Option Nat
  | WEv.watchdog d :: WEv.sleepFor ms :: rest =>
      if d = dismissed then some ms
      else sleepAfterWatchdog dismissed (WEv.sleepFor ms :: rest)
  | _ :: rest => sleepAfterWatchdog dismissed rest
  | [] => none

/-! ## Helper lemmas -/

/-- Split lemma for the leading `ensure_emulator_ready` run. -/
theorem splitPreSteps_spec (steps : List Step) :
    (splitPreSteps steps).1 ++ (splitPreSteps steps).2 = steps ∧
    (∀ s ∈ (splitPreSteps steps).1, isEnsureReady s = true) ∧
    (∀ s rest, (splitPreSteps steps).2 = s :: rest → isEnsureReady s = false) := by
  induction steps with
  | nil => simp [splitPreSteps]
  | cons s rest ih =>
      by_cases h : isEnsureReady s = true
      · obtain ⟨ih1, ih2, ih3⟩ := ih
        refine ⟨?_, ?_, ?_⟩
        · simp [splitPreSteps, h, ih1]
        · intro x hx
          simp only [splitPreSteps, h, if_true, List.mem_cons] at hx
          rcases hx with rfl | hx
          · exact h
          · exact ih2 x hx
        · intro x r hx
          simp only [splitPreSteps, h, if_true] at hx
          exact ih3 x r hx
      · have h' : isEnsureReady s = false := by
          cases hh : isEnsureReady s
          · rfl
          · exact absurd hh h
        refine ⟨?_, ?_, ?_⟩
        · simp [splitPreSteps, h']
        · intro x hx
          simp [splitPreSteps, h'] at hx
        · intro x r hx
          simp only [splitPreSteps, h'] at hx
          obtain ⟨rfl, -⟩ := hx
          exact h'

/-- One-step unfolding of `retryFrom`. -/
theorem retryFrom_succ (body : Nat → Except String Unit) (d : Option Nat)
    (a n : Nat) :
    retryFrom body d a (n + 1) =
      match body a with
      | Except.ok _ => ([Ev.run a], Except.ok ())
      | Except.error e =>
          if n = 0 then ([Ev.run a], Except.error e)
          else
            (Ev.run a :: Ev.sleep (d.getD 500) :: (retryFrom body d (a + 1) n).1,
             (retryFrom body d (a + 1) n).2) := rfl

/-- Generalised all-fail unrolling of `retryFrom`: starting at attempt `a`
with `n ≥ 1` remaining attempts, all of which fail, the loop performs runs
`a, …, a+n-1` with one sleep after every run but the last, and returns the
outcome of the final attempt. -/
theorem retryFrom_all_fail (n : Nat) :
    ∀ (a : Nat) (body : Nat → Except String Unit) (d : Option Nat), 1 ≤ n →
    (∀ k, a ≤ k → k < a + n → ∃ e, body k = Except.error e) →
    retryFrom body d a n =
      ((List.range' a n).flatMap (fun k =>
          if k = a + n - 1 then [Ev.run k] else [Ev.run k, Ev.sleep (d.getD 500)]),
       body (a + n - 1)) := by
  induction n with
  | zero => intro a body d h; omega
  | succ m ih =>
      intro a body d _ hfail
      obtain ⟨e, he⟩ := hfail a (Nat.le_refl a) (by omega)
      rw [retryFrom_succ]
      cases m with
      | zero =>
          simp [he, List.range'_succ]
      | succ m' =>
          have hmain := ih (a + 1) body d (by omega) (by
            intro k hk1 hk2
            exact hfail k (by omega) (by omega))
          simp only [he, if_neg (Nat.succ_ne_zero m')]
          rw [hmain]
          have harith : a + 1 + (m' + 1) - 1 = a + (m' + 1 + 1) - 1 := by omega
          rw [List.range'_succ a (m' + 1) 1]
          simp only [harith]
          have hcond : ¬ (a = a + (m' + 1 + 1) - 1) := by omega
          simp [hcond]

/-- Generalised success unrolling of `retryFrom`: the first `j` attempts
starting at `a` fail, attempt `a + j` succeeds and is within budget, so the
loop performs runs `a, …, a+j` with sleeps between them and stops. -/
theorem retryFrom_success (j : Nat) :
    ∀ (a n : Nat) (body : Nat → Except String Unit) (d : Option Nat), j < n →
    body (a + j) = Except.ok () →
    (∀ k, a ≤ k → k < a + j → ∃ e, body k = Except.error e) →
    retryFrom body d a n =
      ((List.range' a j).flatMap (fun k => [Ev.run k, Ev.sleep (d.getD 500)]) ++
        [Ev.run (a + j)],
       Except.ok ()) := by
  induction j with
  | zero =>
      intro a n body d hj hok _
      cases n with
      | zero => omega
      | succ m =>
          rw [retryFrom_succ]
          rw [Nat.add_zero] at hok
          simp [hok]
  | succ j' ih =>
      intro a n body d hj hok hfail
      obtain ⟨e, he⟩ := hfail a (Nat.le_refl a) (by omega)
      cases n with
      | zero => omega
      | succ m =>
          have hm : m ≠ 0 := by omega
          have hmain := ih (a + 1) m body d (by omega)
            (by have h1 : a + 1 + j' = a + (j' + 1) := by omega
                rw [h1]; exact hok)
            (by intro k hk1 hk2; exact hfail k (by omega) (by omega))
          rw [retryFrom_succ]
          simp only [he, if_neg hm]
          rw [hmain]
          rw [List.range'_succ a j' 1]
          have h1 : a + 1 + j' = a + (j' + 1) := by omega
          simp [h1]

/-- Claim C4: `runAction` splits the step list into the maximal leading run
of `ensure_emulator_ready` steps (executed outside the action deadline) and
the remainder (executed under the single deadline
`action.timeoutMs ?? defaultTimeoutMs`). -/
theorem runAction_plan_splits_leading_ready (action : ActionDefinition)
    (defaultTimeoutMs : Nat) :
    (planAction action defaultTimeoutMs).preSteps ++
        (planAction action defaultTimeoutMs).timedSteps = action.steps ∧
    (∀ s ∈ (planAction action defaultTimeoutMs).preSteps, isEnsureReady s = true) ∧
    (∀ s rest, (planAction action defaultTimeoutMs).timedSteps = s :: rest →
        isEnsureReady s = false) ∧
    (planAction action defaultTimeoutMs).timeoutMs =
        action.timeoutMs.getD defaultTimeoutMs := by
  obtain ⟨h1, h2, h3⟩ := splitPreSteps_spec action.steps
  exact ⟨h1, h2, h3, rfl⟩

/-- Claim C6: `wake_and_unlock` first queries the screen state; with the
screen already on it issues zero key events (the step is a no-op beyond the
query); with the screen off it sends exactly key events 224, 82, 3 in that
order. -/
theorem wake_and_unlock_idempotent :
    executeWakeAndUnlock true = [DevOp.screenQuery true] ∧
    keyCodesOf (executeWakeAndUnlock true) = [] ∧
    (∀ b, (executeWakeAndUnlock b).head? = some (DevOp.screenQuery b)) ∧
    keyCodesOf (executeWakeAndUnlock false) = [224, 82, 3] := by
  refine ⟨rfl, rfl, ?_, rfl⟩
  intro b; cases b <;> rfl

/-- Claim C2: a `retry{attempts = N, delayMs = d}` step whose nested
sequence fails on every attempt runs the sequence exactly N times
(attempts 1 … N), sleeping `d ?? 500` between consecutive attempts only,
and propagates the final attempt's failure unmodified; and if the first
successful attempt is `a ≤ N`, the loop stops there and the step
succeeds. -/
theorem retry_runs_attempts_then_propagates (N : Nat) (d : Option Nat)
    (body : Nat → Except String Unit) (hN : 1 ≤ N) :
    ((∀ k, 1 ≤ k → k ≤ N → ∃ e, body k = Except.error e) →
      runWithRetry N d body =
        ((List.range' 1 N).flatMap (fun k =>
            if k = N then [Ev.run k] else [Ev.run k, Ev.sleep (d.getD 500)]),
         body N)) ∧
    (∀ a, 1 ≤ a → a ≤ N → body a = Except.ok () →
      (∀ k, 1 ≤ k → k < a → ∃ e, body k = Except.error e) →
      runWithRetry N d body =
        ((List.range' 1 (a - 1)).flatMap
            (fun k => [Ev.run k, Ev.sleep (d.getD 500)]) ++ [Ev.run a],
         Except.ok ())) := by
  constructor
  · intro hfail
    have h := retryFrom_all_fail N 1 body d hN (by
      intro k hk1 hk2
      exact hfail k hk1 (by omega))
    rw [runWithRetry, h]
    have : 1 + N - 1 = N := by omega
    simp [this]
  · intro a ha1 haN hok hfail
    have h := retryFrom_success (a - 1) 1 N body d (by omega)
      (by have : 1 + (a - 1) = a := by omega
          rw [this]; exact hok)
      (by intro k hk1 hk2; exact hfail k hk1 (by omega))
    rw [runWithRetry, h]
    have : 1 + (a - 1) = a := by omega
    simp [this]

/-- Witness for C2: three attempts, delay 100, a body that always fails —
exactly three runs, sleeps of 100 between them, and the final failure is
returned. -/
theorem retry_runs_attempts_then_propagates_witness :
    runWithRetry 3 (some 100) (fun _ => Except.error "boom") =
      ([Ev.run 1, Ev.sleep 100, Ev.run 2, Ev.sleep 100, Ev.run 3],
       Except.error "boom") := by
  have h := (retry_runs_attempts_then_propagates 3 (some 100)
      (fun _ => Except.error "boom") (by omega)).1
    (fun k _ _ => ⟨"boom", rfl⟩)
  exact h.trans (by rfl)

/-- One-step unfolding of `repeatFrom`. -/
theorem repeatFrom_succ (body : Nat → Except String Unit) (d : Option Nat)
    (count iter n : Nat) :
    repeatFrom body d count iter (n + 1) =
      match body iter with
      | Except.error e => ([Ev.run iter], Except.error e)
      | Except.ok _ =>
          if iter < count && 0 < d.getD 0 then
            (Ev.run iter :: Ev.sleep (d.getD 0) ::
                (repeatFrom body d count (iter + 1) n).1,
             (repeatFrom body d count (iter + 1) n).2)
          else
            (Ev.run iter :: (repeatFrom body d count (iter + 1) n).1,
             (repeatFrom body d count (iter + 1) n).2) := rfl

/-- Generalised all-success unrolling of `repeatFrom`: `n` iterations from
`iter`, all succeeding, emit runs `iter, …, iter+n-1`, each followed by a
sleep exactly when it is not the `count`-th iteration and the delay is
positive. -/
theorem repeatFrom_all_ok (n : Nat) :
    ∀ (iter : Nat) (body : Nat → Except String Unit) (d : Option Nat)
      (count : Nat),
    (∀ k, iter ≤ k → k < iter + n → body k = Except.ok ()) →
    repeatFrom body d count iter n =
      ((List.range' iter n).flatMap (fun k =>
          if k < count && 0 < d.getD 0 then [Ev.run k, Ev.sleep (d.getD 0)]
          else [Ev.run k]),
       Except.ok ()) := by
  induction n with
  | zero => intro iter body d count _; rfl
  | succ m ih =>
      intro iter body d count hok
      have hmain := ih (iter + 1) body d count (by
        intro k hk1 hk2
        exact hok k (by omega) (by omega))
      rw [repeatFrom_succ]
      simp only [hok iter (Nat.le_refl iter) (by omega)]
      rw [hmain, List.range'_succ iter m 1]
      simp only [List.flatMap_cons, Bool.and_eq_true, decide_eq_true_eq]
      by_cases hc : iter < count ∧ 0 < d.getD 0
      · simp [hc]
      · simp [hc]

/-- Generalised abort unrolling of `repeatFrom`: the first `j` iterations
from `iter` succeed, iteration `iter + j` fails; the loop stops there and
the failure propagates. -/
theorem repeatFrom_fails (j : Nat) :
    ∀ (iter n : Nat) (body : Nat → Except String Unit) (d : Option Nat)
      (count : Nat) (e : String),
    j < n →
    body (iter + j) = Except.error e →
    (∀ k, iter ≤ k → k < iter + j → body k = Except.ok ()) →
    repeatFrom body d count iter n =
      ((List.range' iter j).flatMap (fun k =>
          if k < count && 0 < d.getD 0 then [Ev.run k, Ev.sleep (d.getD 0)]
          else [Ev.run k]) ++ [Ev.run (iter + j)],
       Except.error e) := by
  induction j with
  | zero =>
      intro iter n body d count e hj he _
      cases n with
      | zero => omega
      | succ m =>
          rw [Nat.add_zero] at he
          rw [repeatFrom_succ]
          simp [he]
  | succ j' ih =>
      intro iter n body d count e hj he hok
      cases n with
      | zero => omega
      | succ m =>
          have hmain := ih (iter + 1) m body d count e (by omega)
            (by have h1 : iter + 1 + j' = iter + (j' + 1) := by omega
                rw [h1]; exact he)
            (by intro k hk1 hk2; exact hok k (by omega) (by omega))
          rw [repeatFrom_succ]
          simp only [hok iter (Nat.le_refl iter) (by omega)]
          rw [hmain, List.range'_succ iter j' 1]
          have h1 : iter + 1 + j' = iter + (j' + 1) := by omega
          simp only [List.flatMap_cons, Bool.and_eq_true, decide_eq_true_eq, h1]
          by_cases hc : iter < count ∧ 0 < d.getD 0
          · simp [hc]
          · simp [hc]

/-- Claim C3: a `repeat{count = N, delayMs = d}` step whose iterations all
succeed runs the nested sequence exactly N times (iterations 1 … N), with
the (positive) delay slept only between consecutive iterations and never
after the last; a failing iteration propagates immediately, aborting the
remaining iterations. -/
theorem repeat_runs_count_and_propagates (N : Nat) (d : Option Nat)
    (body : Nat → Except String Unit) (hN : 1 ≤ N) :
    ((∀ k, 1 ≤ k → k ≤ N → body k = Except.ok ()) →
      runRepeat N d body =
        ((List.range' 1 N).flatMap (fun k =>
            if k < N && 0 < d.getD 0 then [Ev.run k, Ev.sleep (d.getD 0)]
            else [Ev.run k]),
         Except.ok ())) ∧
    (∀ a e, 1 ≤ a → a ≤ N → body a = Except.error e →
      (∀ k, 1 ≤ k → k < a → body k = Except.ok ()) →
      runRepeat N d body =
        ((List.range' 1 (a - 1)).flatMap (fun k =>
            if k < N && 0 < d.getD 0 then [Ev.run k, Ev.sleep (d.getD 0)]
            else [Ev.run k]) ++ [Ev.run a],
         Except.error e)) := by
  constructor
  · intro hok
    exact repeatFrom_all_ok N 1 body d N (by
      intro k hk1 hk2
      exact hok k hk1 (by omega))
  · intro a e ha1 haN he hok
    have h := repeatFrom_fails (a - 1) 1 N body d N e (by omega)
      (by have h1 : 1 + (a - 1) = a := by omega
          rw [h1]; exact he)
      (by intro k hk1 hk2; exact hok k hk1 (by omega))
    rw [runRepeat, h]
    have h1 : 1 + (a - 1) = a := by omega
    rw [h1]

/-- Witness for C3: three iterations, delay 50, all succeeding — exactly
three runs with sleeps of 50 only between them, none after the last. -/
theorem repeat_runs_count_and_propagates_witness :
    runRepeat 3 (some 50) (fun _ => Except.ok ()) =
      ([Ev.run 1, Ev.sleep 50, Ev.run 2, Ev.sleep 50, Ev.run 3],
       Except.ok ()) := by
  have h := (repeat_runs_count_and_propagates 3 (some 50)
      (fun _ => Except.ok ()) (by omega)).1 (fun k _ _ => rfl)
  exact h.trans (by rfl)

/-- Unfolding of `runStepsM` on a cons cell. -/
theorem runStepsM_cons (outc : Nat → Except String Unit) (base : Nat)
    (s : Step) (rest : List Step) :
    runStepsM outc base (s :: rest) =
      match outc base with
      | Except.error e => ([REv.execStep s], Except.error e)
      | Except.ok _ =>
          (REv.execStep s :: (runStepsM outc (base + 1) rest).1,
           (runStepsM outc (base + 1) rest).2) := rfl

/-- `runSteps` itself never performs a proactive interstitial check. -/
theorem runStepsM_no_dismiss (steps : List Step) :
    ∀ (outc : Nat → Except String Unit) (base : Nat),
    countDismiss (runStepsM outc base steps).1 = 0 := by
  induction steps with
  | nil => intro outc base; rfl
  | cons s rest ih =>
      intro outc base
      rw [runStepsM_cons]
      cases h : outc base with
      | error e => simp [countDismiss]
      | ok u => simp only [countDismiss, List.countP_cons] at *; simp [ih outc (base + 1)]

/-- Count of proactive checks distributes over trace concatenation. -/
theorem countDismiss_append (a b : List REv) :
    countDismiss (a ++ b) = countDismiss a + countDismiss b :=
  List.countP_append _ _ _

/-- Amended claim C5: the interpreter performs exactly one proactive
interstitial check-and-dismiss per action, at the very start of the whole
action (before any step), and a failure of that check never aborts the
action (`dismissSystemUiDialog` swallows exceptions); no additional
proactive check runs before individual steps. -/
theorem action_checks_interstitial_once_at_start (actionId : String)
    (action : ActionDefinition) (outc : Nat → Except String Unit)
    (dur : Nat) (startedAt : String) :
    (∃ rest, (runActionM actionId action outc dur startedAt).2.2 =
        REv.dismissCheck :: rest ∧ countDismiss rest = 0) ∧
    (∀ c, dismissSystemUiDialogM c = Except.ok ()) := by
  constructor
  · have hpre := runStepsM_no_dismiss (splitPreSteps action.steps).1 outc 0
    have hrest := runStepsM_no_dismiss (splitPreSteps action.steps).2 outc
      (splitPreSteps action.steps).1.length
    simp only [runActionM]
    cases h1 : (runStepsM outc 0 (splitPreSteps action.steps).1).2 with
    | error msg =>
        refine ⟨_, rfl, ?_⟩
        rw [countDismiss_append, hpre]
        rfl
    | ok u =>
        cases h2 : (runStepsM outc (splitPreSteps action.steps).1.length
            (splitPreSteps action.steps).2).2 with
        | error msg =>
            refine ⟨_, rfl, ?_⟩
            rw [countDismiss_append, countDismiss_append, hpre, hrest]
            rfl
        | ok v =>
            refine ⟨_, rfl, ?_⟩
            rw [countDismiss_append, hpre, hrest]
  · intro c; cases c <;> rfl

/-- Counterexample to claim C5 as stated: an action with two leaf steps
produces exactly one proactive check, at the start — the second step begins
with no interstitial check before it, so the trace fails the
"check before every step" reading. -/
theorem action_checks_interstitial_counterexample :
    runActionM "open" ⟨none, none, [Step.tap_coordinates 1 2, Step.keyevent 3]⟩
        (fun _ => Except.ok ()) 5 "t0" =
      (⟨none, some ⟨"open", ActionStatus.ok, 5, none, "t0"⟩⟩,
       Except.ok ⟨"open", ActionStatus.ok, 5, none, "t0"⟩,
       [REv.dismissCheck, REv.execStep (Step.tap_coordinates 1 2),
        REv.execStep (Step.keyevent 3)]) ∧
    execPrecededByCheck
        [REv.dismissCheck, REv.execStep (Step.tap_coordinates 1 2),
         REv.execStep (Step.keyevent 3)] = false ∧
    countDismiss
        [REv.dismissCheck, REv.execStep (Step.tap_coordinates 1 2),
         REv.execStep (Step.keyevent 3)] = 1 :=
  ⟨rfl, rfl, rfl⟩

/-- Claim C9: an action id absent from the action table fails with the
`Unknown action` error (status `error`, duration 0) before any device
operation — the job's trace is empty, so in particular no artifact capture
happens — and the engine state is left exactly as it was. -/
theorem unknown_action_short_circuits (config : ActionConfig)
    (actionId : String) (st : EngineState) (outc : Nat → Except String Unit)
    (dur : Nat) (startedAt nowStr : String)
    (h : config.actions.lookup actionId = none) :
    enqueueJobM config actionId st outc dur startedAt nowStr =
      (st,
       Except.error
         ⟨actionId, ActionStatus.error, 0,
          some ("Unknown action: " ++ actionId), nowStr⟩,
       []) := by
  unfold enqueueJobM resolveActionM
  rw [h]

/-- Witness for C9 at a concrete table: requesting `close_garage` when only
`open_garage` is configured yields the unknown-action error with an empty
trace. -/
theorem unknown_action_short_circuits_witness :
    enqueueJobM ⟨none, [("open_garage", ⟨none, none, [Step.wake_and_unlock]⟩)]⟩
        "close_garage" ⟨none, none⟩ (fun _ => Except.ok ()) 7 "t1" "t2" =
      (⟨none, none⟩,
       Except.error
         ⟨"close_garage", ActionStatus.error, 0,
          some "Unknown action: close_garage", "t2"⟩,
       []) := by
  have h := unknown_action_short_circuits
    ⟨none, [("open_garage", ⟨none, none, [Step.wake_and_unlock]⟩)]⟩
    "close_garage" ⟨none, none⟩ (fun _ => Except.ok ()) 7 "t1" "t2" (by rfl)
  exact h.trans (by rfl)

/-- Claim C10: a request for an unknown action id leaves the observable
engine state unchanged — `getState` returns the same `inFlight` and
`lastResult` as before, so the unknown-action failure never becomes
`lastResult` and never sets `inFlight`. -/
theorem unknown_action_leaves_state (config : ActionConfig)
    (actionId : String) (st : EngineState) (outc : Nat → Except String Unit)
    (dur : Nat) (startedAt nowStr : String)
    (h : config.actions.lookup actionId = none) :
    getStateM (enqueueJobM config actionId st outc dur startedAt nowStr).1 =
        getStateM st ∧
    (enqueueJobM config actionId st outc dur startedAt nowStr).1.inFlight =
        st.inFlight ∧
    (enqueueJobM config actionId st outc dur startedAt nowStr).1.lastResult =
        st.lastResult := by
  unfold enqueueJobM resolveActionM
  rw [h]
  exact ⟨rfl, rfl, rfl⟩

/-- Witness for C10: with a last result and no in-flight action recorded, a
request for an unconfigured id leaves `getState` unchanged. -/
theorem unknown_action_leaves_state_witness :
    getStateM (enqueueJobM ⟨some 1, [("refresh", ⟨none, some 5, [Step.keyevent 4]⟩)]⟩
        "missing" ⟨none, some ⟨"refresh", ActionStatus.ok, 20, none, "s0"⟩⟩
        (fun _ => Except.ok ()) 9 "t3" "t4").1 =
      getStateM ⟨none, some ⟨"refresh", ActionStatus.ok, 20, none, "s0"⟩⟩ := by
  have h := unknown_action_leaves_state
    ⟨some 1, [("refresh", ⟨none, some 5, [Step.keyevent 4]⟩)]⟩
    "missing" ⟨none, some ⟨"refresh", ActionStatus.ok, 20, none, "s0"⟩⟩
    (fun _ => Except.ok ()) 9 "t3" "t4" (by rfl)
  exact h.1

/-- One-step unfolding of `waitLoop`. -/
theorem waitLoop_succ (oracle : Nat → PollOutcome) (pollMs : Nat)
    (lastErr : Option String) (k fuel : Nat) :
    waitLoop oracle pollMs lastErr k (fuel + 1) =
      match oracle k with
      | PollOutcome.found b => ([WEv.dump], Except.ok b)
      | PollOutcome.dialogDismissed =>
          (WEv.dump :: WEv.watchdog true :: WEv.sleepFor pollMs ::
              (waitLoop oracle pollMs lastErr (k + 1) fuel).1,
           (waitLoop oracle pollMs lastErr (k + 1) fuel).2)
      | PollOutcome.noMatch =>
          (WEv.dump :: WEv.watchdog false :: WEv.sleepFor pollMs ::
              (waitLoop oracle pollMs lastErr (k + 1) fuel).1,
           (waitLoop oracle pollMs lastErr (k + 1) fuel).2)
      | PollOutcome.errored e =>
          (WEv.dump :: WEv.sleepFor pollMs ::
              (waitLoop oracle pollMs (some e) (k + 1) fuel).1,
           (waitLoop oracle pollMs (some e) (k + 1) fuel).2) := rfl

/-- Every sleep in a wait-loop trace is the configured poll interval. -/
theorem waitLoop_allSleeps (oracle : Nat → PollOutcome) (pollMs fuel : Nat) :
    ∀ (lastErr : Option String) (k : Nat),
    allSleepsEq pollMs (waitLoop oracle pollMs lastErr k fuel).1 = true := by
  induction fuel with
  | zero => intro lastErr k; rfl
  | succ m ih =>
      intro lastErr k
      rw [waitLoop_succ]
      cases ho : oracle k with
      | found b => simp [allSleepsEq]
      | dialogDismissed => simp [allSleepsEq, ih]
      | noMatch => simp [allSleepsEq, ih]
      | errored e => simp [allSleepsEq, ih]

/-- In a wait-loop trace every watchdog invocation immediately follows the
dump it was checked against. -/
theorem waitLoop_watchdogAfterDump (oracle : Nat → PollOutcome)
    (pollMs fuel : Nat) :
    ∀ (lastErr : Option String) (k : Nat),
    (∀ prev, wdAux prev (waitLoop oracle pollMs lastErr k fuel).1 = true) ∧
    watchdogAfterDump (waitLoop oracle pollMs lastErr k fuel).1 = true := by
  induction fuel with
  | zero => intro lastErr k; exact ⟨fun prev => rfl, rfl⟩
  | succ m ih =>
      intro lastErr k
      rw [waitLoop_succ]
      cases ho : oracle k with
      | found b => exact ⟨fun prev => rfl, rfl⟩
      | dialogDismissed =>
          constructor
          · intro prev
            simp [wdAux, (ih lastErr (k + 1)).1]
          · simp [watchdogAfterDump, wdAux, (ih lastErr (k + 1)).1]
      | noMatch =>
          constructor
          · intro prev
            simp [wdAux, (ih lastErr (k + 1)).1]
          · simp [watchdogAfterDump, wdAux, (ih lastErr (k + 1)).1]
      | errored e =>
          constructor
          · intro prev
            simp [wdAux, (ih (some e) (k + 1)).1]
          · simp [watchdogAfterDump, wdAux, (ih (some e) (k + 1)).1]

/-- In a wait-loop trace every watchdog invocation — dismissal or not — is
immediately followed by one sleep of the poll interval. -/
theorem waitLoop_watchdogThenSleep (oracle : Nat → PollOutcome)
    (pollMs fuel : Nat) :
    ∀ (lastErr : Option String) (k : Nat),
    watchdogThenSleep pollMs (waitLoop oracle pollMs lastErr k fuel).1 = true := by
  induction fuel with
  | zero => intro lastErr k; rfl
  | succ m ih =>
      intro lastErr k
      rw [waitLoop_succ]
      cases ho : oracle k with
      | found b => simp [watchdogThenSleep]
      | dialogDismissed => simp [watchdogThenSleep, ih]
      | noMatch => simp [watchdogThenSleep, ih]
      | errored e => simp [watchdogThenSleep, ih]

/-- When no poll throws, every dump except a final successful one is
immediately followed by a watchdog invocation: each non-matching poll runs
the watchdog. -/
theorem waitLoop_dumpThenWatchdog (oracle : Nat → PollOutcome)
    (pollMs fuel : Nat) (hne : ∀ k e, oracle k ≠ PollOutcome.errored e) :
    ∀ (lastErr : Option String) (k : Nat),
    dumpThenWatchdog (waitLoop oracle pollMs lastErr k fuel).1 = true := by
  induction fuel with
  | zero => intro lastErr k; rfl
  | succ m ih =>
      intro lastErr k
      rw [waitLoop_succ]
      cases ho : oracle k with
      | found b => simp [dumpThenWatchdog]
      | dialogDismissed => simp [dumpThenWatchdog, ih]
      | noMatch => simp [dumpThenWatchdog, ih]
      | errored e => exact absurd ho (hne k e)

/-- Amended claim C7: in every wait-loop poll a non-match invokes the
watchdog against the same dump (the watchdog event immediately follows its
dump), and after a dismissal the loop re-polls after one pause exactly
equal to the normal poll interval — the same `stepPollMs` sleep a plain
non-match incurs, not a strictly shorter one. -/
theorem wait_poll_watchdog_same_dump_equal_pause (oracle : Nat → PollOutcome)
    (pollMs fuel : Nat) :
    allSleepsEq pollMs (waitForSelectorM oracle pollMs fuel).1 = true ∧
    watchdogAfterDump (waitForSelectorM oracle pollMs fuel).1 = true ∧
    watchdogThenSleep pollMs (waitForSelectorM oracle pollMs fuel).1 = true ∧
    ((∀ k e, oracle k ≠ PollOutcome.errored e) →
      dumpThenWatchdog (waitForSelectorM oracle pollMs fuel).1 = true) :=
  ⟨waitLoop_allSleeps oracle pollMs fuel none 0,
   (waitLoop_watchdogAfterDump oracle pollMs fuel none 0).2,
   waitLoop_watchdogThenSleep oracle pollMs fuel none 0,
   fun hne => waitLoop_dumpThenWatchdog oracle pollMs fuel hne none 0⟩

/-- Witness for the amended C7 at a concrete error-free oracle. -/
theorem wait_poll_watchdog_same_dump_equal_pause_witness :
    dumpThenWatchdog
        (waitForSelectorM (fun _ => PollOutcome.noMatch) 500 2).1 = true :=
  (wait_poll_watchdog_same_dump_equal_pause (fun _ => PollOutcome.noMatch)
      500 2).2.2.2
    (fun _ e h => PollOutcome.noConfusion h)

/-- Counterexample to claim C7 as stated: a poll whose watchdog dismisses a
dialog is followed by a sleep of exactly the poll interval (500), the same
pause a plain non-match incurs — not a strictly shorter one. -/
theorem wait_poll_dismissal_pause_counterexample :
    waitForSelectorM
        (fun k => if k = 0 then PollOutcome.dialogDismissed
                  else if k = 1 then PollOutcome.noMatch
                  else PollOutcome.found ⟨1, 2, 3, 4⟩) 500 3 =
      ([WEv.dump, WEv.watchdog true, WEv.sleepFor 500,
        WEv.dump, WEv.watchdog false, WEv.sleepFor 500, WEv.dump],
       Except.ok ⟨1, 2, 3, 4⟩) ∧
    sleepAfterWatchdog true
        [WEv.dump, WEv.watchdog true, WEv.sleepFor 500,
         WEv.dump, WEv.watchdog false, WEv.sleepFor 500, WEv.dump] = some 500 ∧
    sleepAfterWatchdog false
        [WEv.dump, WEv.watchdog true, WEv.sleepFor 500,
         WEv.dump, WEv.watchdog false, WEv.sleepFor 500, WEv.dump] = some 500 ∧
    ¬ ((500 : Nat) < 500) :=
  ⟨rfl, rfl, rfl, by omega⟩

/-- `takeDigits` splits its input. -/
theorem takeDigits_decomp (cs : List Char) :
    (takeDigits cs).1 ++ (takeDigits cs).2 = cs := by
  induction cs with
  | nil => rfl
  | cons c r ih =>
      by_cases h : c.isDigit = true
      · simp [takeDigits, h, ih]
      · simp [takeDigits, h]

/-- Everything in the digit run is a digit. -/
theorem takeDigits_all_digits (cs : List Char) :
    ∀ x ∈ (takeDigits cs).1, x.isDigit = true := by
  induction cs with
  | nil => simp [takeDigits]
  | cons c r ih =>
      by_cases h : c.isDigit = true
      · simp only [takeDigits, h, if_true]
        intro x hx
        rcases List.mem_cons.mp hx with rfl | hx
        · exact h
        · exact ih x hx
      · simp [takeDigits, h]

/-- On a digit run followed by a non-digit, `takeDigits` stops exactly at
the boundary (maximal munch). -/
theorem takeDigits_of_digits_append (ds : List Char) (c : Char) (r : List Char)
    (hds : ∀ x ∈ ds, x.isDigit = true) (hc : c.isDigit = false) :
    takeDigits (ds ++ c :: r) = (ds, c :: r) := by
  induction ds with
  | nil => simp [takeDigits, hc]
  | cons d ds' ih =>
      have hd : d.isDigit = true := hds d (List.mem_cons_self d ds')
      have ih' := ih (fun x hx => hds x (List.mem_cons_of_mem d hx))
      simp [takeDigits, hd, ih']

/-- Characterisation of `expectChar`. -/
theorem expectChar_eq_some (c : Char) (cs r : List Char) :
    expectChar c cs = some r ↔ cs = c :: r := by
  cases cs with
  | nil => simp [expectChar]
  | cons x xs =>
      by_cases h : x = c
      · subst h; simp [expectChar]
      · simp [expectChar, h]

/-- The position matcher succeeds on exactly the rectangle shape, capturing
the decimal values and the unconsumed rest. -/
theorem matchRectHere_on_shape (d1 d2 d3 d4 rest : List Char)
    (h1 : d1 ≠ []) (h2 : d2 ≠ []) (h3 : d3 ≠ []) (h4 : d4 ≠ [])
    (g1 : ∀ c ∈ d1, c.isDigit = true) (g2 : ∀ c ∈ d2, c.isDigit = true)
    (g3 : ∀ c ∈ d3, c.isDigit = true) (g4 : ∀ c ∈ d4, c.isDigit = true) :
    matchRectHere
        ('[' :: (d1 ++ ',' :: (d2 ++ ']' :: '[' :: (d3 ++ ',' :: (d4 ++ ']' :: rest))))) =
      some (⟨digitsVal d1, digitsVal d2, digitsVal d3, digitsVal d4⟩, rest) := by
  have hd1 : d1.isEmpty = false := by cases d1 with
    | nil => exact absurd rfl h1
    | cons _ _ => rfl
  have hd2 : d2.isEmpty = false := by cases d2 with
    | nil => exact absurd rfl h2
    | cons _ _ => rfl
  have hd3 : d3.isEmpty = false := by cases d3 with
    | nil => exact absurd rfl h3
    | cons _ _ => rfl
  have hd4 : d4.isEmpty = false := by cases d4 with
    | nil => exact absurd rfl h4
    | cons _ _ => rfl
  simp [matchRectHere, expectChar,
    takeDigits_of_digits_append d1 ','
      (d2 ++ ']' :: '[' :: (d3 ++ ',' :: (d4 ++ ']' :: rest))) g1 (by decide),
    takeDigits_of_digits_append d2 ']'
      ('[' :: (d3 ++ ',' :: (d4 ++ ']' :: rest))) g2 (by decide),
    takeDigits_of_digits_append d3 ',' (d4 ++ ']' :: rest) g3 (by decide),
    takeDigits_of_digits_append d4 ']' rest g4 (by decide),
    hd1, hd2, hd3, hd4]
  exact ⟨h1, h2, h3, h4⟩

/-- A successful position match means the input has the rectangle shape
right here. -/
theorem matchRectHere_some_shape (cs : List Char) (b : Bounds)
    (rest : List Char) (h : matchRectHere cs = some (b, rest)) :
    IsRectHere cs := by
  unfold matchRectHere at h
  cases hcs : expectChar '[' cs with
  | none => rw [hcs] at h; simp at h
  | some r0 =>
  rw [hcs] at h
  have hcs' := (expectChar_eq_some '[' cs r0).mp hcs
  simp only [Option.bind] at h
  obtain ⟨D1, R1, hD1, hR1⟩ :
      ∃ Dl Rl, (takeDigits r0).1 = Dl ∧ (takeDigits r0).2 = Rl := ⟨_, _, rfl, rfl⟩
  have hr0 : r0 = D1 ++ R1 := by rw [← hD1, ← hR1, takeDigits_decomp]
  have gD1 : ∀ c ∈ D1, c.isDigit = true := hD1 ▸ takeDigits_all_digits r0
  rw [hD1, hR1] at h
  cases hie1 : D1.isEmpty with
  | true => rw [hie1] at h; simp at h
  | false =>
  rw [hie1] at h
  simp only [Bool.false_eq_true, if_false] at h
  have hne1 : D1 ≠ [] := by
    intro hnil; rw [hnil] at hie1; simp at hie1
  cases hc1 : expectChar ',' R1 with
  | none => rw [hc1] at h; simp at h
  | some r2 =>
  rw [hc1] at h
  have hR1' := (expectChar_eq_some ',' R1 r2).mp hc1
  simp only [Option.bind] at h
  obtain ⟨D2, R2, hD2, hR2⟩ :
      ∃ Dl Rl, (takeDigits r2).1 = Dl ∧ (takeDigits r2).2 = Rl := ⟨_, _, rfl, rfl⟩
  have hr2 : r2 = D2 ++ R2 := by rw [← hD2, ← hR2, takeDigits_decomp]
  have gD2 : ∀ c ∈ D2, c.isDigit = true := hD2 ▸ takeDigits_all_digits r2
  rw [hD2, hR2] at h
  cases hie2 : D2.isEmpty with
  | true => rw [hie2] at h; simp at h
  | false =>
  rw [hie2] at h
  simp only [Bool.false_eq_true, if_false] at h
  have hne2 : D2 ≠ [] := by
    intro hnil; rw [hnil] at hie2; simp at hie2
  cases hc2 : expectChar ']' R2 with
  | none => rw [hc2] at h; simp at h
  | some r3 =>
  rw [hc2] at h
  have hR2' := (expectChar_eq_some ']' R2 r3).mp hc2
  simp only [Option.bind] at h
  cases hc3 : expectChar '[' r3 with
  | none => rw [hc3] at h; simp at h
  | some r4 =>
  rw [hc3] at h
  have hr3' := (expectChar_eq_some '[' r3 r4).mp hc3
  simp only [Option.bind] at h
  obtain ⟨D3, R3, hD3, hR3⟩ :
      ∃ Dl Rl, (takeDigits r4).1 = Dl ∧ (takeDigits r4).2 = Rl := ⟨_, _, rfl, rfl⟩
  have hr4 : r4 = D3 ++ R3 := by rw [← hD3, ← hR3, takeDigits_decomp]
  have gD3 : ∀ c ∈ D3, c.isDigit = true := hD3 ▸ takeDigits_all_digits r4
  rw [hD3, hR3] at h
  cases hie3 : D3.isEmpty with
  | true => rw [hie3] at h; simp at h
  | false =>
  rw [hie3] at h
  simp only [Bool.false_eq_true, if_false] at h
  have hne3 : D3 ≠ [] := by
    intro hnil; rw [hnil] at hie3; simp at hie3
  cases hc4 : expectChar ',' R3 with
  | none => rw [hc4] at h; simp at h
  | some r6 =>
  rw [hc4] at h
  have hR3' := (expectChar_eq_some ',' R3 r6).mp hc4
  simp only [Option.bind] at h
  obtain ⟨D4, R4, hD4, hR4⟩ :
      ∃ Dl Rl, (takeDigits r6).1 = Dl ∧ (takeDigits r6).2 = Rl := ⟨_, _, rfl, rfl⟩
  have hr6 : r6 = D4 ++ R4 := by rw [← hD4, ← hR4, takeDigits_decomp]
  have gD4 : ∀ c ∈ D4, c.isDigit = true := hD4 ▸ takeDigits_all_digits r6
  rw [hD4, hR4] at h
  cases hie4 : D4.isEmpty with
  | true => rw [hie4] at h; simp at h
  | false =>
  rw [hie4] at h
  simp only [Bool.false_eq_true, if_false] at h
  have hne4 : D4 ≠ [] := by
    intro hnil; rw [hnil] at hie4; simp at hie4
  cases hc5 : expectChar ']' R4 with
  | none => rw [hc5] at h; simp at h
  | some restF =>
  rw [hc5] at h
  have hR4' := (expectChar_eq_some ']' R4 restF).mp hc5
  refine ⟨D1, D2, D3, D4, restF, hne1, hne2, hne3, hne4, gD1, gD2, gD3, gD4, ?_⟩
  rw [hcs', hr0, hR1', hr2, hR2', hr3', hr4, hR3', hr6, hR4']

/-- Unfolding of `scanRect` on a cons cell. -/
theorem scanRect_cons (c : Char) (cs : List Char) :
    scanRect (c :: cs) =
      match matchRectHere (c :: cs) with
      | some p => some p.1
      | none => scanRect cs := rfl

/-- If the matcher succeeds at some position of a longer list, the
left-to-right scan succeeds (possibly at an earlier position). -/
theorem scanRect_append (pre : List Char) :
    ∀ (cs : List Char) (p : Bounds × List Char),
    matchRectHere cs = some p → ∃ b, scanRect (pre ++ cs) = some b := by
  induction pre with
  | nil =>
      intro cs p h
      cases cs with
      | nil => rw [matchRectHere] at h; simp [expectChar] at h
      | cons c r => exact ⟨p.1, by rw [List.nil_append, scanRect_cons, h]⟩
  | cons x pre' ih =>
      intro cs p h
      obtain ⟨b, hb⟩ := ih cs p h
      cases hm : matchRectHere (x :: (pre' ++ cs)) with
      | some q => exact ⟨q.1, by rw [List.cons_append, scanRect_cons, hm]⟩
      | none =>
          refine ⟨b, ?_⟩
          rw [List.cons_append, scanRect_cons, hm]
          exact hb

/-- A successful scan decomposes the input around a position match. -/
theorem scanRect_some_decomp (cs : List Char) :
    ∀ b, scanRect cs = some b →
    ∃ pre suffix p, cs = pre ++ suffix ∧ matchRectHere suffix = some p := by
  induction cs with
  | nil => intro b h; exact absurd h (by simp [scanRect])
  | cons c r ih =>
      intro b h
      rw [scanRect] at h
      cases hm : matchRectHere (c :: r) with
      | some p => exact ⟨[], c :: r, p, rfl, hm⟩
      | none =>
          rw [hm] at h
          obtain ⟨pre, suffix, p, hdec, hp⟩ := ih b h
          exact ⟨c :: pre, suffix, p, by rw [hdec]; rfl, hp⟩

/-- Amended claim C8: `parseBounds` succeeds exactly on strings that
contain a substring of the rectangle shape `[l,t][r,b]` anywhere (the regex
is unanchored, so leading or trailing characters are tolerated), and every
string with no such substring raises the fatal format error; on an input
whose character list is exactly `[l,t][r,b]` with `l,t,r,b` decimal digit
runs it returns their decimal values as
`{left: l, top: t, right: r, bottom: b}`. -/
theorem parseBounds_succeeds_iff_contains_rect :
    (∀ s, (∃ b, parseBounds s = Except.ok b) ↔ ContainsRect s) ∧
    (∀ (s : String) (d1 d2 d3 d4 : List Char),
      d1 ≠ [] → d2 ≠ [] → d3 ≠ [] → d4 ≠ [] →
      (∀ c ∈ d1, c.isDigit = true) → (∀ c ∈ d2, c.isDigit = true) →
      (∀ c ∈ d3, c.isDigit = true) → (∀ c ∈ d4, c.isDigit = true) →
      s.toList =
        '[' :: (d1 ++ ',' :: (d2 ++ ']' :: '[' :: (d3 ++ ',' :: (d4 ++ [']'])))) →
      parseBounds s =
        Except.ok ⟨digitsVal d1, digitsVal d2, digitsVal d3, digitsVal d4⟩) := by
  constructor
  · intro s
    constructor
    · rintro ⟨b, hb⟩
      unfold parseBounds at hb
      cases hs : scanRect s.toList with
      | none => rw [hs] at hb; simp at hb
      | some b0 =>
          obtain ⟨pre, suffix, p, hdec, hp⟩ := scanRect_some_decomp s.toList b0 hs
          exact ⟨pre, suffix, hdec,
            matchRectHere_some_shape suffix p.1 p.2 (by rw [hp])⟩
    · rintro ⟨pre, suffix, hdec,
        d1, d2, d3, d4, rest, hn1, hn2, hn3, hn4, g1, g2, g3, g4, hshape⟩
      have hm := matchRectHere_on_shape d1 d2 d3 d4 rest hn1 hn2 hn3 hn4
        g1 g2 g3 g4
      rw [← hshape] at hm
      obtain ⟨b, hb⟩ := scanRect_append pre suffix _ hm
      refine ⟨b, ?_⟩
      unfold parseBounds
      rw [hdec, hb]
  · intro s d1 d2 d3 d4 hn1 hn2 hn3 hn4 g1 g2 g3 g4 hshape
    have hm := matchRectHere_on_shape d1 d2 d3 d4 [] hn1 hn2 hn3 hn4
      g1 g2 g3 g4
    unfold parseBounds
    rw [hshape, scanRect_cons, hm]

/-- Witness for the amended C8: the spec's round-trip example
`"[12,34][56,78]"` parses to `{left:12, top:34, right:56, bottom:78}`. -/
theorem parseBounds_succeeds_iff_contains_rect_witness :
    parseBounds "[12,34][56,78]" = Except.ok ⟨12, 34, 56, 78⟩ := by
  have h := parseBounds_succeeds_iff_contains_rect.2 "[12,34][56,78]"
    ['1', '2'] ['3', '4'] ['5', '6'] ['7', '8']
    (by decide) (by decide) (by decide) (by decide)
    (by decide) (by decide) (by decide) (by decide)
    (by decide)
  exact h.trans (by rfl)

/-- Counterexample to claim C8 as stated: `parseBounds` succeeds on
`"x[12,34][56,78]"`, a string that is not of the shape `[l,t][r,b]` —
the unanchored regex ignores the leading junk instead of raising the
format error the claim requires. -/
theorem parseBounds_shape_counterexample :
    parseBounds "x[12,34][56,78]" = Except.ok ⟨12, 34, 56, 78⟩ ∧
    ¬ ExactRectShape "x[12,34][56,78]" := by
  refine ⟨rfl, ?_⟩
  rintro ⟨d1, d2, d3, d4, -, -, -, -, -, -, -, -, h⟩
  rw [show ("x[12,34][56,78]").toList = 'x' :: ("[12,34][56,78]").toList
    from rfl] at h
  have hx : ('x' : Char) = '[' := (List.cons_eq_cons.mp h).1
  exact absurd hx (by decide)

/-- The substring check agrees with `List.IsInfix`. -/
theorem subList_iff (needle : List Char) :
    ∀ hay, subList needle hay = true ↔ needle <:+: hay := by
  intro hay
  induction hay with
  | nil => simp [subList, List.infix_nil, List.isEmpty_iff]
  | cons c rest ih =>
      simp [subList, Bool.or_eq_true, ih, List.infix_cons_iff,
        List.isPrefixOf_iff_prefix]

/-- Collapsing one early-false check of the matcher chain. -/
theorem chainStep (c : Prop) [Decidable c] (X : Bool) :
    ((if c then false else X) = true) ↔ (¬ c ∧ X = true) := by
  by_cases h : c <;> simp [h]

/-- An exact-equality guard is inactive precisely when the spec-side
condition for that field holds (given the validation invariant that a
present field is non-empty). -/
theorem exact_field_iff (fld : Option String) (attr : String)
    (hval : fld.getD "x" ≠ "") :
    ((truthyStr fld && decide (attr ≠ fld.getD "")) = false) ↔
      (∀ v, fld = some v → attr = v) := by
  cases fld with
  | none => simp [truthyStr]
  | some t =>
      have ht : t ≠ "" := hval
      simp [truthyStr, ht]

/-- A `*Contains` guard is inactive precisely when the spec-side substring
condition for that field holds. -/
theorem contains_field_iff (fld : Option String) (attr : String)
    (hval : fld.getD "x" ≠ "") :
    ((truthyStr fld && !strIncludes attr (fld.getD "")) = false) ↔
      (∀ v, fld = some v → v.toList <:+: attr.toList) := by
  cases fld with
  | none => simp [truthyStr]
  | some t =>
      have ht : t ≠ "" := hval
      simp [truthyStr, ht, strIncludes, subList_iff]

/-- On validated selectors the code's matcher decides exactly the spec's
conjunction-of-present-fields matching relation. -/
theorem matchesSelector_iff_spec (f : NodeFields) (sel : Selector)
    (hval : selectorValid sel = true) :
    matchesSelector f sel = true ↔ SpecMatches sel f := by
  simp only [selectorValid, Bool.and_eq_true, decide_eq_true_eq] at hval
  obtain ⟨⟨⟨⟨⟨⟨h1, h2⟩, h3⟩, h4⟩, h5⟩, h6⟩, -⟩ := hval
  rw [matchesSelector]
  rw [chainStep, chainStep, chainStep, chainStep, chainStep, chainStep]
  simp only [Bool.not_eq_true]
  rw [exact_field_iff sel.text f.text h1,
      contains_field_iff sel.textContains f.text h2,
      exact_field_iff sel.resourceId f.resourceId h3,
      contains_field_iff sel.resourceIdContains f.resourceId h4,
      exact_field_iff sel.contentDesc f.contentDesc h5,
      contains_field_iff sel.contentDescContains f.contentDesc h6]
  simp [SpecMatches]

/-- `find?` finds the first hit: the list splits around the result with
all earlier entries failing the test. -/
theorem find?_eq_some_split {α : Type} (p : α → Bool) (l : List α) (a : α)
    (h : l.find? p = some a) :
    ∃ l1 l2, l = l1 ++ a :: l2 ∧ (∀ x ∈ l1, p x = false) ∧ p a = true := by
  induction l with
  | nil => simp [List.find?] at h
  | cons x xs ih =>
      rw [List.find?] at h
      cases hp : p x with
      | true =>
          rw [hp] at h
          simp only [Option.some.injEq] at h
          subst h
          exact ⟨[], xs, rfl, by simp, hp⟩
      | false =>
          rw [hp] at h
          obtain ⟨l1, l2, hdec, hall, hpa⟩ := ih h
          refine ⟨x :: l1, l2, by rw [hdec]; rfl, ?_, hpa⟩
          intro y hy
          rcases List.mem_cons.mp hy with rfl | hy
          · exact hp
          · exact hall y hy

mutual

/-- Every record collected from the parsed document has a truthy `bounds`
attribute (that is the collection condition). -/
theorem collectNodes_truthy : ∀ (d : UiDoc),
    ∀ f ∈ collectNodes d, truthyStr f.bounds = true
  | UiDoc.prim => by simp [collectNodes]
  | UiDoc.arr items => by
      simpa [collectNodes] using collectNodesList_truthy items
  | UiDoc.obj fl cs => by
      intro f hf
      rw [collectNodes] at hf
      rcases List.mem_append.mp hf with hf | hf
      · cases ht : truthyStr fl.bounds with
        | true =>
            rw [ht] at hf
            simp only [if_true, List.mem_singleton] at hf
            subst hf; exact ht
        | false =>
            rw [ht] at hf
            simp at hf
      · exact collectNodesList_truthy cs f hf

theorem collectNodesList_truthy : ∀ (ds : List UiDoc),
    ∀ f ∈ collectNodesList ds, truthyStr f.bounds = true
  | [] => by simp [collectNodesList]
  | d :: ds => by
      intro f hf
      rw [collectNodesList] at hf
      rcases List.mem_append.mp hf with hf | hf
      · exact collectNodes_truthy d f hf
      · exact collectNodesList_truthy ds f hf

end

/-- First-match characterisation of the node/selector scan: on elements
with truthy, parseable bounds and validated selectors, the scan either
reports no match anywhere, or returns the first matching element/selector
pair (elements outermost, selectors innermost). -/
theorem scanNodes_spec (elems : List NodeFields) (selectors : List Selector)
    (htruthy : ∀ f ∈ elems, truthyStr f.bounds = true)
    (hparse : ∀ f ∈ elems, ∃ b, parseBounds (f.bounds.getD "") = Except.ok b)
    (hval : ∀ sel ∈ selectors, selectorValid sel = true) :
    (scanNodes elems selectors = Except.ok none ∧
      ∀ f ∈ elems, ∀ sel ∈ selectors, ¬ SpecMatches sel f) ∨
    (∃ sel b, scanNodes elems selectors = Except.ok (some (sel, b)) ∧
      FirstMatch elems selectors sel b) := by
  induction elems with
  | nil => left; exact ⟨rfl, by simp⟩
  | cons f rest ih =>
      have hft : truthyStr f.bounds = true := htruthy f (List.mem_cons_self f rest)
      rw [scanNodes, hft]
      simp only [if_true]
      cases hfind : selectors.find? (fun s => matchesSelector f s) with
      | some sel =>
          obtain ⟨sl1, sl2, hsel, hall, hpa⟩ := find?_eq_some_split _ selectors sel hfind
          obtain ⟨b, hb⟩ := hparse f (List.mem_cons_self f rest)
          right
          refine ⟨sel, b, by rw [hb]; rfl, [], f, rest, rfl, by simp, ⟨sl1, sl2, hsel, ?_⟩, ?_, hb⟩
          · intro s hs
            have hmem : s ∈ selectors := by rw [hsel]; exact List.mem_append_left _ hs
            rw [← matchesSelector_iff_spec f s (hval s hmem)]
            simp [hall s hs]
          · have hmem : sel ∈ selectors := by
              rw [hsel]; exact List.mem_append_right _ (List.mem_cons_self sel sl2)
            exact (matchesSelector_iff_spec f sel (hval sel hmem)).mp hpa
      | none =>
          have hnof : ∀ sel ∈ selectors, ¬ SpecMatches sel f := by
            intro sel hsel hspec
            have := List.find?_eq_none.mp hfind sel hsel
            exact this ((matchesSelector_iff_spec f sel (hval sel hsel)).mpr hspec)
          have ihr := ih (fun g hg => htruthy g (List.mem_cons_of_mem f hg))
            (fun g hg => hparse g (List.mem_cons_of_mem f hg))
          rcases ihr with ⟨heq, hnone⟩ | ⟨sel, b, heq, hfm⟩
          · left
            refine ⟨heq, ?_⟩
            intro g hg sel hsel
            rcases List.mem_cons.mp hg with rfl | hg
            · exact hnof sel hsel
            · exact hnone g hg sel hsel
          · right
            obtain ⟨pre, g, post, hdec, hpre, hsplit, hspec, hbp⟩ := hfm
            refine ⟨sel, b, heq, f :: pre, g, post, by rw [hdec]; rfl, ?_, hsplit, hspec, hbp⟩
            intro f' hf' s hs
            rcases List.mem_cons.mp hf' with rfl | hf'
            · exact hnof s hs
            · exact hpre f' hf' s hs

/-- Claim C1: for a parsed snapshot and a non-empty list of validated
selectors (with parseable bounds on the collected elements, since a
malformed rectangle would throw instead), `findAnySelectorBounds` returns
`null` exactly when no element/selector pair matches, and otherwise the
first match — outer loop over elements in document (pre-order) position,
inner loop over selectors in caller order — where matching is the
conjunction of the selector's present fields (exact fields equal, 
`*Contains` fields substrings, absent fields unconstrained). -/
theorem findAnySelectorBounds_first_match (doc : UiDoc)
    (selectors : List Selector) (hne : selectors ≠ [])
    (hval : ∀ sel ∈ selectors, selectorValid sel = true)
    (hparse : ∀ f ∈ collectNodes doc,
      ∃ b, parseBounds (f.bounds.getD "") = Except.ok b) :
    (findAnySelectorBounds doc selectors = Except.ok none ∧
      ∀ f ∈ collectNodes doc, ∀ sel ∈ selectors, ¬ SpecMatches sel f) ∨
    (∃ sel b, findAnySelectorBounds doc selectors = Except.ok (some (sel, b)) ∧
      FirstMatch (collectNodes doc) selectors sel b) := by
  have hie : selectors.isEmpty = false := by
    cases selectors with
    | nil => exact absurd rfl hne
    | cons _ _ => rfl
  rw [findAnySelectorBounds, hie]
  simp only [Bool.false_eq_true, if_false]
  exact scanNodes_spec (collectNodes doc) selectors
    (collectNodes_truthy doc) hparse hval

/-- Witness for C1: a snapshot with two bounded elements and one validated
selector; the characterisation holds at this concrete input. -/
theorem findAnySelectorBounds_first_match_witness :
    (findAnySelectorBounds
        (UiDoc.obj ⟨"", "", "", none⟩
          [UiDoc.obj ⟨"Close", "btn.close", "", some "[0,0][10,10]"⟩ [],
           UiDoc.obj ⟨"Open", "btn.open", "", some "[100,200][300,250]"⟩ []])
        [⟨some "Open", none, none, none, none, none⟩] = Except.ok none ∧
      ∀ f ∈ collectNodes
        (UiDoc.obj ⟨"", "", "", none⟩
          [UiDoc.obj ⟨"Close", "btn.close", "", some "[0,0][10,10]"⟩ [],
           UiDoc.obj ⟨"Open", "btn.open", "", some "[100,200][300,250]"⟩ []]),
        ∀ sel ∈ [(⟨some "Open", none, none, none, none, none⟩ : Selector)],
          ¬ SpecMatches sel f) ∨
    (∃ sel b, findAnySelectorBounds
        (UiDoc.obj ⟨"", "", "", none⟩
          [UiDoc.obj ⟨"Close", "btn.close", "", some "[0,0][10,10]"⟩ [],
           UiDoc.obj ⟨"Open", "btn.open", "", some "[100,200][300,250]"⟩ []])
        [⟨some "Open", none, none, none, none, none⟩] =
          Except.ok (some (sel, b)) ∧
      FirstMatch
        (collectNodes
          (UiDoc.obj ⟨"", "", "", none⟩
            [UiDoc.obj ⟨"Close", "btn.close", "", some "[0,0][10,10]"⟩ [],
             UiDoc.obj ⟨"Open", "btn.open", "", some "[100,200][300,250]"⟩ []]))
        [⟨some "Open", none, none, none, none, none⟩] sel b) := by
  refine findAnySelectorBounds_first_match _ _ ?_ ?_ ?_
  · exact List.cons_ne_nil _ _
  · decide
  · intro f hf
    have hcoll : collectNodes
        (UiDoc.obj ⟨"", "", "", none⟩
          [UiDoc.obj ⟨"Close", "btn.close", "", some "[0,0][10,10]"⟩ [],
           UiDoc.obj ⟨"Open", "btn.open", "", some "[100,200][300,250]"⟩ []]) =
        [⟨"Close", "btn.close", "", some "[0,0][10,10]"⟩,
         ⟨"Open", "btn.open", "", some "[100,200][300,250]"⟩] := rfl
    rw [hcoll] at hf
    rcases List.mem_cons.mp hf with rfl | hf
    · exact ⟨⟨0, 0, 10, 10⟩, rfl⟩
    rcases List.mem_cons.mp hf with rfl | hf
    · exact ⟨⟨100, 200, 300, 250⟩, rfl⟩
    · simp at hf
